import Mathlib

/-!
Shallow embedding of the geodata-benchmark measurement framework
(packages/benchmark): the statistics utilities (metrics.ts), the results
database (results-db.ts), the query runner (runBenchmarkCase), the
concurrent and mixed-workload drivers (concurrent.ts, mixed-workload.ts)
and the docker stats resource sampler (docker-stats.ts).

Numeric samples are modelled as rationals; JavaScript exceptions are
modelled with Except; the asynchronous drivers are modelled by the list of
per-operation outcomes together with the Promise.all combinator; the
resource sampler is modelled as an explicit state machine over the armed
interval timers.
-/

/- ── metrics.ts ─────────────────────────────────────────────────── -/

/-- percentile(values, p) from metrics.ts: empty input gives 0, a
single-element input gives that element, otherwise the input is copied,
sorted ascending, and linearly interpolated at rank (p/100)*(n-1). -/
def percentile (values : List ℚ) (p : ℚ) : ℚ :=
  if values.length = 0 then 0
  else if values.length = 1 then values.headI
  else
    let sorted := values.mergeSort
    let index : ℚ := (p / 100) * ((sorted.length : ℚ) - 1)
    let lower : ℤ := ⌊index⌋
    let upper : ℤ := ⌈index⌉
    if lower = upper then sorted.getD lower.toNat 0
    else
      let fraction : ℚ := index - (lower : ℚ)
      sorted.getD lower.toNat 0 +
        fraction * (sorted.getD upper.toNat 0 - sorted.getD lower.toNat 0)

/-- p50(values) from metrics.ts. -/
def p50 (values : List ℚ) : ℚ := percentile values 50

/-- p95(values) from metrics.ts. -/
def p95 (values : List ℚ) : ℚ := percentile values 95

/-- p99(values) from metrics.ts. -/
def p99 (values : List ℚ) : ℚ := percentile values 99

/-- mean(values) from metrics.ts: 0 on empty input, else sum divided by
length. -/
def mean (values : List ℚ) : ℚ :=
  if values.length = 0 then 0
  else values.foldl (· + ·) 0 / (values.length : ℚ)

/-- stddev(values) from metrics.ts: 0 when fewer than two samples, else
the square root of the sample variance.  Math.sqrt is an opaque numeric
primitive here, passed in as sqrtFn. -/
def stddev (sqrtFn : ℚ → ℚ) (values : List ℚ) : ℚ :=
  if values.length < 2 then 0
  else
    sqrtFn (((values.map (fun v => (v - mean values) ^ 2)).foldl (· + ·) 0)
      / ((values.length : ℚ) - 1))

/-- min(values) from metrics.ts: 0 on empty input, else Math.min over the
samples. -/
def listMin : List ℚ → ℚ
  | [] => 0
  | x :: xs => xs.foldl min x

/-- max(values) from metrics.ts: 0 on empty input, else Math.max over the
samples. -/
def listMax : List ℚ → ℚ
  | [] => 0
  | x :: xs => xs.foldl max x

/-- The Stats record from metrics.ts. -/
structure Stats where
  count : ℕ
  min : ℚ
  max : ℚ
  mean : ℚ
  stddev : ℚ
  p50 : ℚ
  p95 : ℚ
  p99 : ℚ
deriving DecidableEq, Repr, Inhabited

/-- computeStats(values) from metrics.ts: bundles count, min, max, mean,
stddev and the three percentiles. -/
def computeStats (sqrtFn : ℚ → ℚ) (values : List ℚ) : Stats :=
  { count := values.length
    min := listMin values
    max := listMax values
    mean := mean values
    stddev := stddev sqrtFn values
    p50 := p50 values
    p95 := p95 values
    p99 := p99 values }

/-- percentile instrumented with the number of times it copies and sorts
the input: the sort on line 223 of metrics.ts runs exactly when both
early returns are passed.  The value component coincides with
percentile. -/
def percentileCounted (values : List ℚ) (p : ℚ) : ℚ × ℕ :=
  if values.length = 0 then (0, 0)
  else if values.length = 1 then (values.headI, 0)
  else
    let sorted := values.mergeSort
    let index : ℚ := (p / 100) * ((sorted.length : ℚ) - 1)
    let lower : ℤ := ⌊index⌋
    let upper : ℤ := ⌈index⌉
    if lower = upper then (sorted.getD lower.toNat 0, 1)
    else
      let fraction : ℚ := index - (lower : ℚ)
      (sorted.getD lower.toNat 0 +
        fraction * (sorted.getD upper.toNat 0 - sorted.getD lower.toNat 0), 1)

/-- computeStats instrumented with the total number of sorts performed:
min, max, mean and stddev sort nothing, and each of the three percentile
calls sorts its own copy of the input. -/
def computeStatsCounted (sqrtFn : ℚ → ℚ) (values : List ℚ) : Stats × ℕ :=
  let c50 := percentileCounted values 50
  let c95 := percentileCounted values 95
  let c99 := percentileCounted values 99
  ({ count := values.length
     min := listMin values
     max := listMax values
     mean := mean values
     stddev := stddev sqrtFn values
     p50 := c50.1
     p95 := c95.1
     p99 := c99.1 }, c50.2 + c95.2 + c99.2)

/-- Modelled from the specification text of Percentile(values, p): the
rank-interpolation formula with idx = (p/100)*(n-1) over the
ascending-sorted copy of the input, where n is the length of the input.
Stated separately from percentile so the code can be compared against
the specification wording. -/
def percentileSpecFormula (values : List ℚ) (p : ℚ) : ℚ :=
  let sorted := values.mergeSort
  let idx : ℚ := (p / 100) * ((values.length : ℚ) - 1)
  let lo : ℤ := ⌊idx⌋
  let hi : ℤ := ⌈idx⌉
  if lo = hi then sorted.getD lo.toNat 0
  else sorted.getD lo.toNat 0 +
    (idx - (lo : ℚ)) * (sorted.getD hi.toNat 0 - sorted.getD lo.toNat 0)

/- ── results-db.ts: rows and queries ───────────────────────────── -/

/-- A row of the benchmark_results table (interface BenchmarkResult in
types.ts): error is NULL or an error message, and rows_returned is the
captured row count. -/
structure BenchmarkResult where
  runId : String
  suite : String
  benchmark : String
  database : String
  scale : ℕ
  iteration : ℕ
  queryTimeMs : ℚ
  rowsReturned : ℕ
  queryPlan : Option String
  error : Option String
  timestamp : String
deriving DecidableEq, Repr, Inhabited

/-- One element of the result of getStatsForRun: a group key together
with the statistics of its non-error samples (interface BenchmarkStats,
with the spread of computeStats kept as a nested record). -/
structure BenchmarkStats where
  suite : String
  benchmark : String
  database : String
  scale : ℕ
  stats : Stats
deriving DecidableEq, Repr, Inhabited

/-- The SELECT DISTINCT suite, benchmark, database, scale query of
getStatsForRun: the distinct group keys among all rows of the run,
with no condition on the error column. -/
def selectDistinctGroups (rows : List BenchmarkResult) (runId : String) :
    List (String × String × String × ℕ) :=
  ((rows.filter (fun r => r.runId = runId)).map
    (fun r => (r.suite, r.benchmark, r.database, r.scale))).dedup

/-- The per-group sample query of getStatsForRun: query_time_ms of the
rows of the run matching the group key whose error column is NULL. -/
def groupTimes (rows : List BenchmarkResult) (runId : String)
    (g : String × String × String × ℕ) : List ℚ :=
  (rows.filter (fun r =>
    r.runId = runId ∧ r.suite = g.1 ∧ r.benchmark = g.2.1 ∧
    r.database = g.2.2.1 ∧ r.scale = g.2.2.2 ∧ r.error = none)).map
    (fun r => r.queryTimeMs)

/-- getStatsForRun from results-db.ts: one stats row per distinct group
key of the run, each computed over that group's non-error samples. -/
def getStatsForRun (sqrtFn : ℚ → ℚ) (rows : List BenchmarkResult)
    (runId : String) : List BenchmarkStats :=
  (selectDistinctGroups rows runId).map (fun g =>
    { suite := g.1, benchmark := g.2.1, database := g.2.2.1, scale := g.2.2.2,
      stats := computeStats sqrtFn (groupTimes rows runId g) })

/-- A row of the runs table. -/
structure RunRecord where
  run_id : String
  started_at : String
  finished_at : Option String
  config_json : Option String
deriving DecidableEq, Repr

/-- finishRun from results-db.ts: UPDATE runs SET finished_at = now
WHERE run_id = runId, applied to the runs table. -/
def finishRun (runs : List RunRecord) (now : String) (runId : String) :
    List RunRecord :=
  runs.map (fun r =>
    if r.run_id = runId then { r with finished_at := some now } else r)

/- ── runBenchmarkCase (query runner) ───────────────────────────── -/

/-- The value returned by a benchmark case operation on success
(the object literal returned by benchCase.fn). -/
structure OpResult where
  rowsReturned : ℕ
  queryPlan : Option String
deriving DecidableEq, Repr

/-- QueryRunnerOptions from the query runner. -/
structure QueryRunnerOptions where
  runId : String
  suite : String
  database : String
  scale : ℕ
  iterations : ℕ
  warmupIterations : ℕ
deriving DecidableEq, Repr

/-- runBenchmarkCase from the query runner.  The operation benchCase.fn
is modelled as a function of the invocation index which either returns an
OpResult or throws (Except.error); elapsed and clock are the oracles for
performance.now differences and timestamps.  Warmup invocations consume
invocation indices 0 to warmupIterations-1 and their outcomes are
discarded; the timed loop then builds one record per iteration, catching
any thrown error into the error field with rowsReturned left at 0.  The
function is total: it never propagates an operation failure. -/
def runBenchmarkCase (fn : ℕ → Except String OpResult) (caseName : String)
    (opts : QueryRunnerOptions) (elapsed : ℕ → ℚ) (clock : ℕ → String) :
    List BenchmarkResult :=
  (List.range opts.iterations).map (fun i =>
    let inv := opts.warmupIterations + i
    match fn inv with
    | Except.ok r =>
      { runId := opts.runId, suite := opts.suite, benchmark := caseName,
        database := opts.database, scale := opts.scale, iteration := i + 1,
        queryTimeMs := elapsed inv, rowsReturned := r.rowsReturned,
        queryPlan := r.queryPlan, error := none, timestamp := clock inv }
    | Except.error e =>
      { runId := opts.runId, suite := opts.suite, benchmark := caseName,
        database := opts.database, scale := opts.scale, iteration := i + 1,
        queryTimeMs := elapsed inv, rowsReturned := 0,
        queryPlan := none, error := some e, timestamp := clock inv })

/- ── concurrent.ts and mixed-workload.ts drivers ───────────────── -/

/-- Promise.all over the per-operation outcomes: the aggregate promise
resolves with all values when every operation succeeds and rejects with
the first failure otherwise. -/
def promiseAll {α : Type} : List (Except String α) → Except String (List α)
  | [] => Except.ok []
  | Except.error e :: _ => Except.error e
  | Except.ok a :: rest => (promiseAll rest).map (fun l => a :: l)

/-- runConcurrentPostgis (and identically runConcurrentMssql) from
concurrent.ts, abstracted over the list of per-query outcomes: the
queries are dispatched under Promise.all and the successful row counts
are accumulated into totalRows. -/
def runConcurrentPostgis (outcomes : List (Except String ℕ)) :
    Except String ℕ :=
  (promiseAll outcomes).map (fun rows => rows.foldl (· + ·) 0)

/-- The two kinds of operation dispatched by mixed-workload.ts. -/
inductive OpKind where
  | read : OpKind
  | write : OpKind
deriving DecidableEq, Repr, Inhabited

/-- The per-slot draw of mixed-workload.ts line 29: slot i is a write
when Math.random() < writeRatio, else a read.  rand is the oracle for
the successive Math.random() draws. -/
def chooseOps (totalOps : ℕ) ( writeRatio : ℚ) (rand : ℕ → ℚ) :
    List OpKind :=
  (List.range totalOps).map (fun i =>
    if rand i < writeRatio then OpKind.write else OpKind.read)

/-- mixedWorkload from mixed-workload.ts: the chosen operations are
dispatched under Promise.all, perform giving the outcome of slot i for
its kind, and the successful row counts are accumulated. -/
def mixedWorkload (perform : ℕ → OpKind → Except String ℕ) (totalOps : ℕ)
    ( writeRatio : ℚ) (rand : ℕ → ℚ) : Except String ℕ :=
  (promiseAll ((chooseOps totalOps writeRatio rand).enum.map
    (fun p => perform p.1 p.2))).map (fun rows => rows.foldl (· + ·) 0)

/- ── docker-stats.ts resource sampler ──────────────────────────── -/

/-- State of the collector closure of createDockerStatsCollector: the
timer variable holds the id of the most recently armed interval timer
(or none), armed lists every interval timer id still armed, next is the
fresh timer id supply, snapshots counts the resource snapshots written
so far. -/
structure SamplerState where
  timer : Option ℕ
  armed : List ℕ
  next : ℕ
  snapshots : ℕ
deriving DecidableEq, Repr

/-- The initial collector state: no timer armed, nothing written. -/
def samplerInit : SamplerState :=
  { timer := none, armed := [], next := 0, snapshots := 0 }

/-- One poll() writes one snapshot per monitored container whose docker
stats invocation succeeds (unreachable containers are skipped
silently). -/
def pollCount (containers : List String) (reachable : String → Bool) : ℕ :=
  (containers.filter reachable).length

/-- start() from createDockerStatsCollector: one immediate synchronous
poll, then setInterval arms a fresh repeating timer whose id overwrites
the timer variable; a previously armed timer is not cleared. -/
def samplerStart (containers : List String) (reachable : String → Bool)
    (s : SamplerState) : SamplerState :=
  { timer := some s.next, armed := s.next :: s.armed, next := s.next + 1,
    snapshots := s.snapshots + pollCount containers reachable }

/-- stop() from createDockerStatsCollector: clearInterval on the timer
held in the timer variable, if any, then the variable is reset. -/
def samplerStop (s : SamplerState) : SamplerState :=
  match s.timer with
  | none => s
  | some t => { s with timer := none, armed := s.armed.erase t }

/- ── helper lemmas ─────────────────────────────────────────────── -/

theorem promiseAll_map_ok (vals : List ℕ) :
    promiseAll (vals.map Except.ok) = Except.ok vals := by
  induction vals with
  | nil => rfl
  | cons v vs ih => simp [promiseAll, ih, Except.map]

theorem promiseAll_first_error (pre post : List (Except String ℕ)) (e : String)
    (h : ∀ o ∈ pre, ∃ n, o = Except.ok n) :
    promiseAll (pre ++ Except.error e :: post) = Except.error e := by
  induction pre with
  | nil => rfl
  | cons o pre ih =>
    obtain ⟨n, rfl⟩ := h o (List.mem_cons_self o pre)
    have := ih (fun o ho => h o (List.mem_cons_of_mem _ ho))
    simp [promiseAll, this, Except.map]

theorem percentileCounted_fst (values : List ℚ) (p : ℚ) :
    (percentileCounted values p).1 = percentile values p := by
  unfold percentileCounted percentile
  split
  · rfl
  · split
    · rfl
    · dsimp only
      split <;> rfl

theorem percentileCounted_snd (values : List ℚ) (p : ℚ) :
    (percentileCounted values p).2 = if values.length ≤ 1 then 0 else 1 := by
  unfold percentileCounted
  by_cases h0 : values.length = 0
  · simp [h0]
  · by_cases h1 : values.length = 1
    · simp [h0, h1]
    · have hgt : ¬ values.length ≤ 1 := by omega
      simp only [h0, h1, if_neg, if_false, hgt]
      split <;> rfl

/- ── claim theorems ────────────────────────────────────────────── -/

/-- C10: calling finishRun with a runId for which no run record exists
completes (the embedding is a total function) and leaves the runs table
unchanged: the UPDATE matches zero rows, so no record is created and no
existing record changes. -/
theorem finishRun_unknown_run_noop :
    ∀ (runs : List RunRecord) (now runId : String),
      (∀ r ∈ runs, r.run_id ≠ runId) → finishRun runs now runId = runs := by
  intro runs now runId h
  unfold finishRun
  have hcong : ∀ r ∈ runs,
      (if r.run_id = runId then { r with finished_at := some now } else r)
        = id r := by
    intro r hr
    simp [h r hr]
  exact (List.map_congr_left hcong).trans (List.map_id runs)

theorem finishRun_unknown_run_noop_witness :
    finishRun [⟨"run-a", "t0", none, none⟩] "t1" "run-b"
      = [⟨"run-a", "t0", none, none⟩] :=
  finishRun_unknown_run_noop [⟨"run-a", "t0", none, none⟩] "t1" "run-b"
    (by decide)

/-- C8: in the mixed workload driver, for every outcome of the per-slot
uniform draw in the unit interval, writeRatio 0 makes every slot a read
and writeRatio 1 makes every slot a write. -/
theorem chooseOps_boundary :
    ∀ (totalOps : ℕ) (rand : ℕ → ℚ),
      ((∀ i, 0 ≤ rand i) →
        ∀ op ∈ chooseOps totalOps 0 rand, op = OpKind.read) ∧
      ((∀ i, rand i < 1) →
        ∀ op ∈ chooseOps totalOps 1 rand, op = OpKind.write) := by
  intro totalOps rand
  constructor
  · intro h op hop
    simp only [chooseOps, List.mem_map, List.mem_range] at hop
    obtain ⟨i, _, hi⟩ := hop
    rw [← hi]
    simp [not_lt.mpr (h i)]
  · intro h op hop
    simp only [chooseOps, List.mem_map, List.mem_range] at hop
    obtain ⟨i, _, hi⟩ := hop
    rw [← hi]
    simp [h i]

theorem chooseOps_boundary_witness :
    (0:ℚ) ≤ 1/2 ∧ (1:ℚ)/2 < 1 ∧
    (chooseOps 2 0 (fun _ => (1:ℚ)/2)).headI = OpKind.read ∧
    (chooseOps 2 1 (fun _ => (1:ℚ)/2)).headI = OpKind.write := by
  have h0 : chooseOps 2 0 (fun _ => (1:ℚ)/2) = [OpKind.read, OpKind.read] := by
    norm_num [chooseOps, List.range_succ]
  have h1 : chooseOps 2 1 (fun _ => (1:ℚ)/2)
      = [OpKind.write, OpKind.write] := by
    norm_num [chooseOps, List.range_succ]
  refine ⟨by norm_num, by norm_num, ?_, ?_⟩
  · exact (chooseOps_boundary 2 (fun _ => (1:ℚ)/2)).1 (fun i => by norm_num) _
      (by rw [h0]; simp)
  · exact (chooseOps_boundary 2 (fun _ => (1:ℚ)/2)).2 (fun i => by norm_num) _
      (by rw [h1]; simp)

/-- C6 counterexample: two Start() calls followed by a single Stop() do
not leave the sampler with no timer armed — the first interval timer is
still armed, because start() overwrites the timer variable without
clearing it and stop() only clears the stored id.  This falsifies both
the idempotence of Start() and the claim that a single Stop() after any
sequence of Start() calls disarms everything. -/
theorem samplerStart_not_idempotent :
    (samplerStop (samplerStart ["bench-postgis"] (fun _ => true)
      (samplerStart ["bench-postgis"] (fun _ => true) samplerInit))).armed
      ≠ [] := by
  decide

/-- C6 (amended): Stop() is idempotent and Stop() without a prior
Start() is a no-op; Start() performs one immediate synchronous poll, so
Start() immediately followed by Stop() leaves no timer armed and has
written exactly one snapshot per reachable monitored container; but
Start() is not idempotent: a second Start() arms a second interval timer
and overwrites the stored handle, so a single Stop() then clears only
the newer timer and the timer armed by the first Start() stays armed. -/
theorem sampler_contract :
    ∀ (containers : List String) (reachable : String → Bool)
      (s : SamplerState),
      samplerStop samplerInit = samplerInit ∧
      samplerStop (samplerStop s) = samplerStop s ∧
      (samplerStop (samplerStart containers reachable samplerInit)).armed
        = [] ∧
      (samplerStop (samplerStart containers reachable samplerInit)).snapshots
        = pollCount containers reachable ∧
      (samplerStop (samplerStart containers reachable
        (samplerStart containers reachable s))).armed
        = s.next :: s.armed := by
  intro containers reachable s
  refine ⟨rfl, ?_, ?_, ?_, ?_⟩
  · cases h : s.timer with
    | none => simp [samplerStop, h]
    | some t => simp [samplerStop, h]
  · simp [samplerStart, samplerStop, samplerInit]
  · simp [samplerStart, samplerStop, samplerInit]
  · simp [samplerStart, samplerStop, List.erase_cons_head]

/-- C2 counterexample: in the uniform concurrent driver one failed query
among otherwise successful ones does not leave the driver returning the
row count of the successes — the Promise.all aggregate rejects, so the
driver call itself fails instead of returning the count 5 accumulated by
the successful sibling. -/
theorem workload_partial_failure :
    runConcurrentPostgis [Except.ok 5, Except.error "connection terminated"]
      ≠ Except.ok 5 := by
  simp [runConcurrentPostgis, promiseAll, Except.map]

/-- C2 (amended): both workload drivers aggregate with Promise.all: when
every dispatched operation succeeds the driver resolves with the summed
row count, but when any operation fails the driver call itself fails
with the first failure instead of returning the partial aggregate of the
successful siblings (which keep running but whose counts are discarded);
the mixed read/write driver is the same aggregation applied to its
per-slot dispatch list. -/
theorem workload_drivers_promiseAll :
    ∀ (vals : List ℕ) (pre post : List (Except String ℕ)) (e : String)
      (perform : ℕ → OpKind → Except String ℕ) (totalOps : ℕ)
      (w : ℚ) (rand : ℕ → ℚ),
      runConcurrentPostgis (vals.map Except.ok)
        = Except.ok (vals.foldl (· + ·) 0) ∧
      ((∀ o ∈ pre, ∃ n, o = Except.ok n) →
        runConcurrentPostgis (pre ++ Except.error e :: post)
          = Except.error e) ∧
      mixedWorkload perform totalOps w rand
        = runConcurrentPostgis ((chooseOps totalOps w rand).enum.map
            (fun p => perform p.1 p.2)) := by
  intro vals pre post e perform totalOps w rand
  refine ⟨?_, ?_, rfl⟩
  · simp [runConcurrentPostgis, promiseAll_map_ok, Except.map]
  · intro h
    simp [runConcurrentPostgis, promiseAll_first_error pre post e h,
      Except.map]

theorem workload_drivers_promiseAll_witness :
    runConcurrentPostgis ([1, 2].map Except.ok) = Except.ok 3 ∧
    runConcurrentPostgis ([Except.ok 1] ++ Except.error "boom" :: [])
      = Except.error "boom" :=
  ⟨(workload_drivers_promiseAll [1, 2] [Except.ok 1] [] "boom"
      (fun _ _ => Except.ok 0) 0 0 (fun _ => 0)).1,
   (workload_drivers_promiseAll [1, 2] [Except.ok 1] [] "boom"
      (fun _ _ => Except.ok 0) 0 0 (fun _ => 0)).2.1
     (by intro o ho; rw [List.mem_singleton] at ho; exact ⟨1, ho⟩)⟩

/-- C9 counterexample: computeStats on the two-element input performs
three sorts, one in each of the three percentile calls, not the single
sort the claim requires. -/
theorem computeStats_not_single_sort :
    (computeStatsCounted (fun q => q) [1, 2]).2 = 3 ∧
    (computeStatsCounted (fun q => q) [1, 2]).2 ≠ 1 := by
  have h : (computeStatsCounted (fun q => q) [(1:ℚ), 2]).2 = 3 := by
    simp [computeStatsCounted, percentileCounted_snd]
  exact ⟨h, by rw [h]; decide⟩

/-- C9 (amended): computeStats produces count, min, max, mean and stddev
without sorting and obtains p50, p95 and p99 through three separate
percentile calls, each of which sorts its own copy of the input: three
sorts in total for inputs of length at least two (zero sorts for shorter
inputs, where percentile returns early), with the resulting stats values
unchanged. -/
theorem computeStats_sort_count :
    ∀ (sqrtFn : ℚ → ℚ) (values : List ℚ),
      (computeStatsCounted sqrtFn values).2
        = (if values.length ≤ 1 then 0 else 3) ∧
      (computeStatsCounted sqrtFn values).1 = computeStats sqrtFn values := by
  intro sqrtFn values
  constructor
  · simp only [computeStatsCounted, percentileCounted_snd]
    split <;> rfl
  · simp [computeStatsCounted, computeStats, percentileCounted_fst,
      p50, p95, p99]

/-- C3: runBenchmarkCase returns exactly opts.iterations measurement
records whose iteration indices are 1..iterations in execution order,
for every operation including ones that throw on some or all
invocations; the warmup count never changes the output length, and the
embedding is a total function, so an individual operation failure never
propagates out of the call. -/
theorem runBenchmarkCase_record_count :
    ∀ (fn : ℕ → Except String OpResult) (caseName : String)
      (opts : QueryRunnerOptions) (elapsed : ℕ → ℚ) (clock : ℕ → String),
      (runBenchmarkCase fn caseName opts elapsed clock).length
        = opts.iterations ∧
      (runBenchmarkCase fn caseName opts elapsed clock).map
        (fun r => r.iteration) = List.range' 1 opts.iterations := by
  intro fn caseName opts elapsed clock
  constructor
  · simp [runBenchmarkCase]
  · rw [runBenchmarkCase, List.map_map, List.range'_eq_map_range]
    apply List.map_congr_left
    intro i hi
    simp only [Function.comp_apply]
    cases h : fn (opts.warmupIterations + i) <;> simp [h, Nat.add_comm]

/-- C4: every record of runBenchmarkCase with its error field set has
rowsReturned 0; and when the operation fails on every timed invocation,
every returned record carries an error and rowsReturned 0. -/
theorem runBenchmarkCase_error_invariant :
    ∀ (fn : ℕ → Except String OpResult) (caseName : String)
      (opts : QueryRunnerOptions) (elapsed : ℕ → ℚ) (clock : ℕ → String)
      (r : BenchmarkResult),
      r ∈ runBenchmarkCase fn caseName opts elapsed clock →
      (r.error.isSome = true → r.rowsReturned = 0) ∧
      ((∀ i, i < opts.iterations →
          (fn (opts.warmupIterations + i)).isOk = false) →
        r.error.isSome = true ∧ r.rowsReturned = 0) := by
  intro fn caseName opts elapsed clock r hr
  simp only [runBenchmarkCase, List.mem_map, List.mem_range] at hr
  obtain ⟨i, hi, hri⟩ := hr
  subst hri
  constructor
  · intro herr
    cases h : fn (opts.warmupIterations + i) with
    | ok v => simp [h] at herr
    | error e => simp [h]
  · intro hall
    have hfail := hall i hi
    cases h : fn (opts.warmupIterations + i) with
    | ok v => rw [h] at hfail; simp [Except.isOk, Except.toBool] at hfail
    | error e => simp [h]

theorem runBenchmarkCase_error_invariant_witness :
    ((runBenchmarkCase (fun _ => Except.error "boom") "bbox-amsterdam"
        ⟨"r1", "bbox", "postgis", 5000, 1, 0⟩ (fun _ => 0)
        (fun _ => "t")).headI.error).isSome = true ∧
    (runBenchmarkCase (fun _ => Except.error "boom") "bbox-amsterdam"
        ⟨"r1", "bbox", "postgis", 5000, 1, 0⟩ (fun _ => 0)
        (fun _ => "t")).headI.rowsReturned = 0 :=
  (runBenchmarkCase_error_invariant (fun _ => Except.error "boom")
      "bbox-amsterdam" ⟨"r1", "bbox", "postgis", 5000, 1, 0⟩ (fun _ => 0)
      (fun _ => "t")
      ((runBenchmarkCase (fun _ => Except.error "boom") "bbox-amsterdam"
        ⟨"r1", "bbox", "postgis", 5000, 1, 0⟩ (fun _ => 0)
        (fun _ => "t")).headI)
      (by simp [runBenchmarkCase, List.range_succ])).2
    (fun i _ => rfl)

/-- A run whose only measurement record carries an error: the group
(bbox, bbox-amsterdam, postgis, 5000) has zero non-error samples. -/
def errRow : BenchmarkResult :=
  { runId := "run1", suite := "bbox", benchmark := "bbox-amsterdam",
    database := "postgis", scale := 5000, iteration := 1,
    queryTimeMs := 12, rowsReturned := 0, queryPlan := none,
    error := some "relation geo_features does not exist",
    timestamp := "t0" }

/-- C1 counterexample: a run whose only record carries an error still
gets a stats row for its group — the group key query has no error
filter, so the all-error group is emitted (as a zero-stats row) instead
of being omitted as the claim requires. -/
theorem getStatsForRun_emits_error_only_group :
    errRow.error.isSome = true ∧
    (getStatsForRun (fun q => q) [errRow] "run1").length = 1 := by
  constructor
  · rfl
  · rfl

/-- C1 (amended): getStatsForRun emits one stats row per distinct
(suite, benchmark, database, scale) key among all of the run's records,
with no condition on the error column; a group whose records all carry
errors is therefore emitted too, as a zero-stats row: its non-error
sample list is empty, so its count is 0. -/
theorem getStatsForRun_group_keys :
    ∀ (sqrtFn : ℚ → ℚ) (rows : List BenchmarkResult) (runId : String),
      (getStatsForRun sqrtFn rows runId).map
        (fun s => (s.suite, s.benchmark, s.database, s.scale))
        = selectDistinctGroups rows runId ∧
      (∀ s ∈ getStatsForRun sqrtFn rows runId,
        (∀ r ∈ rows, r.runId = runId → r.error.isSome = true) →
          s.stats.count = 0) := by
  intro sqrtFn rows runId
  constructor
  · rw [getStatsForRun, List.map_map]
    exact List.map_id _
  · intro s hs hall
    simp only [getStatsForRun, List.mem_map] at hs
    obtain ⟨g, hg, rfl⟩ := hs
    have htimes : groupTimes rows runId g = [] := by
      unfold groupTimes
      rw [List.map_eq_nil_iff, List.filter_eq_nil_iff]
      intro r hr hp
      simp only [decide_eq_true_eq] at hp
      have herr := hall r hr hp.1
      rw [hp.2.2.2.2.2] at herr
      simp at herr
    simp only [htimes]
    rfl

theorem getStatsForRun_group_keys_witness :
    ((getStatsForRun (fun q => q) [errRow] "run1").map
      (fun s => (s.suite, s.benchmark, s.database, s.scale))
      = selectDistinctGroups [errRow] "run1") ∧
    (getStatsForRun (fun q => q) [errRow] "run1").headI.stats.count = 0 :=
  ⟨(getStatsForRun_group_keys (fun q => q) [errRow] "run1").1,
   (getStatsForRun_group_keys (fun q => q) [errRow] "run1").2
     ((getStatsForRun (fun q => q) [errRow] "run1").headI)
     (by simp [getStatsForRun, selectDistinctGroups, errRow])
     (by intro r hr hrun
         rw [List.mem_singleton] at hr
         rw [hr]
         rfl)⟩

theorem percentile_empty (p : ℚ) : percentile [] p = 0 := rfl

theorem percentile_singleton (x p : ℚ) : percentile [x] p = x := by
  simp [percentile]

theorem percentileSpecFormula_singleton (x p : ℚ) :
    percentileSpecFormula [x] p = x := by
  have hs : ([x] : List ℚ).mergeSort = [x] := by
    simp [List.mergeSort_eq_insertionSort, List.insertionSort]
  unfold percentileSpecFormula
  rw [hs]
  norm_num

/-- C5: percentile implements the rank-interpolation formula of the
specification: for a non-empty input and p between 0 and 100 it equals
the interpolated value at idx = (p/100)*(n-1) over the ascending-sorted
copy (the singleton shortcut agrees with the formula), an empty input
yields 0 rather than failing, and a one-element input yields that
element. -/
theorem percentile_matches_spec :
    ∀ (values : List ℚ) (p : ℚ),
      (values ≠ [] → 0 ≤ p → p ≤ 100 →
        percentile values p = percentileSpecFormula values p) ∧
      (∀ x : ℚ, percentile [x] p = x) ∧
      percentile [] p = 0 := by
  intro values p
  refine ⟨?_, fun x => percentile_singleton x p, percentile_empty p⟩
  intro hne h0 h100
  cases values with
  | nil => cases hne rfl
  | cons a t =>
    cases t with
    | nil => rw [percentile_singleton, percentileSpecFormula_singleton]
    | cons b l =>
      have hlen : ((a :: b :: l).mergeSort).length = (a :: b :: l).length :=
        List.length_mergeSort (l := a :: b :: l)
      simp only [List.length_cons] at hlen
      unfold percentile percentileSpecFormula
      simp only [List.length_cons]
      rw [if_neg (by omega), if_neg (by omega)]
      simp only [hlen]

theorem percentile_matches_spec_witness :
    percentile [3, 1, 2] 50 = percentileSpecFormula [3, 1, 2] 50 ∧
    percentile [(7:ℚ)] 50 = 7 ∧ percentile ([] : List ℚ) 50 = 0 :=
  ⟨(percentile_matches_spec [3, 1, 2] 50).1 (by simp) (by norm_num)
     (by norm_num),
   (percentile_matches_spec [(7:ℚ)] 50).2.1 7,
   (percentile_matches_spec [] 50).2.2⟩

theorem foldlMin_le_init (xs : List ℚ) (a : ℚ) : xs.foldl min a ≤ a := by
  induction xs generalizing a with
  | nil => simp
  | cons x xs ih => exact le_trans (ih (min a x)) (min_le_left a x)

theorem foldlMin_le_of_mem (xs : List ℚ) (a y : ℚ) (hy : y ∈ xs) :
    xs.foldl min a ≤ y := by
  induction xs generalizing a with
  | nil => cases hy
  | cons x xs ih =>
    rcases List.mem_cons.mp hy with rfl | h
    · exact le_trans (foldlMin_le_init xs (min a y)) (min_le_right a y)
    · exact ih (min a x) h

theorem foldlMin_eq_or_mem (xs : List ℚ) (a : ℚ) :
    xs.foldl min a = a ∨ xs.foldl min a ∈ xs := by
  induction xs generalizing a with
  | nil => left; rfl
  | cons x xs ih =>
    rcases ih (min a x) with h | h
    · rcases le_total a x with hax | hxa
      · left; rw [List.foldl_cons, h, min_eq_left hax]
      · right; rw [List.foldl_cons, h, min_eq_right hxa]
        exact List.mem_cons_self x xs
    · right; exact List.mem_cons_of_mem x h

theorem listMin_le_of_mem (v : List ℚ) (y : ℚ) (hy : y ∈ v) :
    listMin v ≤ y := by
  cases v with
  | nil => cases hy
  | cons x xs =>
    rcases List.mem_cons.mp hy with rfl | h
    · exact foldlMin_le_init xs y
    · exact foldlMin_le_of_mem xs x y h

theorem listMin_mem (v : List ℚ) (hv : v ≠ []) : listMin v ∈ v := by
  cases v with
  | nil => cases hv rfl
  | cons x xs =>
    rcases foldlMin_eq_or_mem xs x with h | h
    · rw [listMin, h]; exact List.mem_cons_self x xs
    · exact List.mem_cons_of_mem x h

theorem foldlMax_init_le (xs : List ℚ) (a : ℚ) : a ≤ xs.foldl max a := by
  induction xs generalizing a with
  | nil => simp
  | cons x xs ih => exact le_trans (le_max_left a x) (ih (max a x))

theorem foldlMax_mem_le (xs : List ℚ) (a y : ℚ) (hy : y ∈ xs) :
    y ≤ xs.foldl max a := by
  induction xs generalizing a with
  | nil => cases hy
  | cons x xs ih =>
    rcases List.mem_cons.mp hy with rfl | h
    · exact le_trans (le_max_right a y) (foldlMax_init_le xs (max a y))
    · exact ih (max a x) h

theorem foldlMax_eq_or_mem (xs : List ℚ) (a : ℚ) :
    xs.foldl max a = a ∨ xs.foldl max a ∈ xs := by
  induction xs generalizing a with
  | nil => left; rfl
  | cons x xs ih =>
    rcases ih (max a x) with h | h
    · rcases le_total x a with hxa | hax
      · left; rw [List.foldl_cons, h, max_eq_left hxa]
      · right; rw [List.foldl_cons, h, max_eq_right hax]
        exact List.mem_cons_self x xs
    · right; exact List.mem_cons_of_mem x h

theorem listMax_ge_of_mem (v : List ℚ) (y : ℚ) (hy : y ∈ v) :
    y ≤ listMax v := by
  cases v with
  | nil => cases hy
  | cons x xs =>
    rcases List.mem_cons.mp hy with rfl | h
    · exact foldlMax_init_le xs y
    · exact foldlMax_mem_le xs x y h

theorem listMax_mem (v : List ℚ) (hv : v ≠ []) : listMax v ∈ v := by
  cases v with
  | nil => cases hv rfl
  | cons x xs =>
    rcases foldlMax_eq_or_mem xs x with h | h
    · rw [listMax, h]; exact List.mem_cons_self x xs
    · exact List.mem_cons_of_mem x h

theorem sorted_headI_le (l : List ℚ) (hs : l.Sorted (· ≤ ·)) (y : ℚ)
    (hy : y ∈ l) : l.headI ≤ y := by
  cases l with
  | nil => cases hy
  | cons a t =>
    rcases List.mem_cons.mp hy with rfl | h
    · exact le_refl y
    · exact List.rel_of_sorted_cons hs y h

theorem sorted_le_getLast (l : List ℚ) (hne : l ≠ [])
    (hs : l.Sorted (· ≤ ·)) (y : ℚ) (hy : y ∈ l) : y ≤ l.getLast hne := by
  induction l with
  | nil => cases hy
  | cons a t ih =>
    cases t with
    | nil =>
      rcases List.mem_cons.mp hy with rfl | h
      · exact le_refl y
      · cases h
    | cons b t =>
      have htne : b :: t ≠ [] := by simp
      rw [List.getLast_cons htne]
      rcases List.mem_cons.mp hy with rfl | h
      · exact List.rel_of_sorted_cons hs _ (List.getLast_mem htne)
      · exact ih htne hs.of_cons h

theorem mergeSort_ne_nil (v : List ℚ) (hv : v ≠ []) : v.mergeSort ≠ [] := by
  intro h
  apply hv
  have hl : (v.mergeSort).length = v.length := List.length_mergeSort (l := v)
  rw [h] at hl
  exact List.length_eq_zero.mp hl.symm

theorem mergeSort_headI_eq_listMin (v : List ℚ) (hv : v ≠ []) :
    (v.mergeSort).headI = listMin v := by
  have hperm : v.mergeSort.Perm v := List.mergeSort_perm v _
  have hs : (v.mergeSort).Sorted (· ≤ ·) := List.sorted_mergeSort' v
  have hne : v.mergeSort ≠ [] := mergeSort_ne_nil v hv
  have hmem : (v.mergeSort).headI ∈ v.mergeSort := by
    cases h : v.mergeSort with
    | nil => exact absurd h hne
    | cons x s => simp [h]
  apply le_antisymm
  · exact sorted_headI_le _ hs _ (hperm.mem_iff.mpr (listMin_mem v hv))
  · exact listMin_le_of_mem v _ (hperm.mem_iff.mp hmem)

theorem mergeSort_getLast_eq_listMax (v : List ℚ) (hv : v ≠ [])
    (hne : v.mergeSort ≠ []) : (v.mergeSort).getLast hne = listMax v := by
  have hperm : v.mergeSort.Perm v := List.mergeSort_perm v _
  have hs : (v.mergeSort).Sorted (· ≤ ·) := List.sorted_mergeSort' v
  apply le_antisymm
  · exact listMax_ge_of_mem v _ (hperm.mem_iff.mp (List.getLast_mem hne))
  · exact sorted_le_getLast _ hne hs _ (hperm.mem_iff.mpr (listMax_mem v hv))

theorem percentile_zero_eq_listMin (v : List ℚ) (hv : v ≠ []) :
    percentile v 0 = listMin v := by
  cases v with
  | nil => cases hv rfl
  | cons a t =>
    cases t with
    | nil => rw [percentile_singleton]; rfl
    | cons b l =>
      have hne : (a :: b :: l).mergeSort ≠ [] := mergeSort_ne_nil _ (by simp)
      have hhead := mergeSort_headI_eq_listMin (a :: b :: l) (by simp)
      rw [← hhead]
      unfold percentile
      simp only [List.length_cons]
      rw [if_neg (by omega), if_neg (by omega)]
      norm_num
      obtain ⟨x, s, hxs⟩ := List.exists_cons_of_ne_nil hne
      simp [hxs]

theorem percentile_hundred_eq_listMax (v : List ℚ) (hv : v ≠ []) :
    percentile v 100 = listMax v := by
  cases v with
  | nil => cases hv rfl
  | cons a t =>
    cases t with
    | nil => rw [percentile_singleton]; rfl
    | cons b l =>
      have hne : (a :: b :: l).mergeSort ≠ [] := mergeSort_ne_nil _ (by simp)
      have hlast := mergeSort_getLast_eq_listMax (a :: b :: l) (by simp) hne
      rw [← hlast]
      have hlen : ((a :: b :: l).mergeSort).length = l.length + 2 := by
        rw [List.length_mergeSort (l := a :: b :: l)]; rfl
      unfold percentile
      simp only [List.length_cons]
      rw [if_neg (by omega), if_neg (by omega)]
      simp only [hlen]
      have hidx : (100 / 100 : ℚ) * (((l.length + 2 : ℕ) : ℚ) - 1)
          = ((l.length + 1 : ℕ) : ℚ) := by push_cast; ring
      rw [hidx, Int.floor_natCast, Int.ceil_natCast, if_pos rfl,
        Int.toNat_natCast]
      rw [List.getD_eq_getElem _ _ (by rw [hlen]; omega)]
      rw [List.getLast_eq_getElem]
      simp only [hlen]
      norm_num

/-- C7: for every non-empty sample sequence, percentile at 0 equals the
minimum of the samples and percentile at 100 equals their maximum. -/
theorem percentile_boundary :
    ∀ (values : List ℚ), values ≠ [] →
      percentile values 0 = listMin values ∧
      percentile values 100 = listMax values :=
  fun values hv =>
    ⟨percentile_zero_eq_listMin values hv,
     percentile_hundred_eq_listMax values hv⟩

theorem percentile_boundary_witness :
    percentile [3, 1, 2] 0 = listMin [3, 1, 2] ∧
    percentile [3, 1, 2] 100 = listMax [3, 1, 2] :=
  percentile_boundary [3, 1, 2] (by simp)
